import Mathlib

/-!
Verification of the viewport/selection engine, the file-list builder and the
process supervisor of the hunter file manager (src/listview.rs,
src/proclist.rs).  Rust `usize` arithmetic is modelled on `Nat`: truncated
subtraction is used where the source can only execute without underflow, and
wrapping modulo `2 ^ 64` is made explicit where an underflow is the point
being analysed.
-/

namespace Hunter

/-- Viewport state of the generic list widget `ListView` (listview.rs):
length of the backing collection, height of the drawing area (`ysize`),
cursor position and scroll offset. -/
structure Viewport where
  len : Nat
  height : Nat
  selection : Nat
  offset : Nat
deriving DecidableEq, Repr

/-- Model of `ListView::move_up` (listview.rs 180-191).  The test
`selection - offset <= 0` is `usize` arithmetic, hence equivalent to
`selection - offset == 0` with truncated subtraction. -/
def moveUp (vp : Viewport) : Viewport :=
  if vp.selection = 0 then vp
  else
    { vp with
      offset := if vp.selection - vp.offset = 0 then vp.offset - 1 else vp.offset,
      selection := vp.selection - 1 }

/-- Model of `ListView::move_down` (listview.rs 192-206); `lines` is the
collection length and `y_size` the viewport height. -/
def moveDown (vp : Viewport) : Viewport :=
  if vp.len = 0 ∨ vp.selection = vp.len - 1 then vp
  else
    { vp with
      offset :=
        if vp.selection + 1 ≥ vp.height ∧ vp.selection + 1 - vp.offset ≥ vp.height
        then vp.offset + 1 else vp.offset,
      selection := vp.selection + 1 }

/-- Model of `ListView::set_selection` (listview.rs 237-247).  The source
computes `offset` by a while loop as the least `o` with
`position < ysize + o`; that least solution is `position + 1 - ysize` in
truncated subtraction (the characterisation is proved below). -/
def setSelection (vp : Viewport) (position : Nat) : Viewport :=
  { vp with selection := position, offset := position + 1 - vp.height }

/-- Model of `ListView::move_top` (listview.rs 208-210). -/
def moveTop (vp : Viewport) : Viewport := setSelection vp 0

/-- Release-mode wrapping of the `usize` expression `n - 1` (on an empty
list `move_bottom` evaluates `0 - 1`, which panics in debug builds and
wraps to `2 ^ 64 - 1` in release builds). -/
def usizeSub1 (n : Nat) : Nat := (n + (2 ^ 64 - 1)) % 2 ^ 64

/-- Model of `ListView::move_bottom` (listview.rs 212-215). -/
def moveBottom (vp : Viewport) : Viewport := setSelection vp (usizeSub1 vp.len)

/-- A `for _ in 0..n` loop applying `f` each iteration. -/
def iterOp (f : Viewport → Viewport) : Nat → Viewport → Viewport
  | 0, vp => vp
  | n + 1, vp => iterOp f n (f vp)

/-- Model of `ListView::page_up` (listview.rs 217-223): `ysize` repetitions
of `move_up`. -/
def pageUp (vp : Viewport) : Viewport := iterOp moveUp vp.height vp

/-- Model of `ListView::page_down` (listview.rs 225-231). -/
def pageDown (vp : Viewport) : Viewport := iterOp moveDown vp.height vp

/-- The navigation operations of the viewport. -/
inductive NavOp where
  | up | down | pgUp | pgDown | top | bottom
  | set (pos : Nat)
deriving DecidableEq, Repr

/-- Dispatch one navigation operation. -/
def navStep (vp : Viewport) : NavOp → Viewport
  | .up => moveUp vp
  | .down => moveDown vp
  | .pgUp => pageUp vp
  | .pgDown => pageDown vp
  | .top => moveTop vp
  | .bottom => moveBottom vp
  | .set pos => setSelection vp pos

/-- The viewport invariant claimed by the spec. -/
def Inv (vp : Viewport) : Prop :=
  vp.selection < max vp.len 1 ∧ vp.offset ≤ vp.selection ∧
    vp.selection - vp.offset < vp.height

/-- Navigation operations that stay inside the collection: `set_selection`
only with an in-range position, `move_bottom` only on a non-empty list. -/
def SafeOpB (len : Nat) : NavOp → Bool
  | .set pos => decide (pos < max len 1)
  | .bottom => decide (1 ≤ len)
  | _ => true

/-- Model of the metadata-population pass of `FileListBuilder::build`
(listview.rs 341-363): the indices of the entries visited by
`iter_files_mut().skip(from).take(upto)`, where `from` is `0` for a
"populate everything" build and the viewport offset otherwise, and
`upto` is `len` resp. `from + ysize + 1`. -/
def buildMetaRange (metaAll : Bool) (offset ysize len : Nat) : List Nat :=
  let fro := if metaAll then 0 else offset
  let upto := if metaAll then len else fro + ysize + 1
  ((List.range len).drop fro).take upto

/-- Concrete viewport used to exercise `set_selection`. -/
def vpC2 : Viewport := ⟨10, 3, 0, 0⟩

/-- The viewport invariant together with the facts that navigation never
changes the collection length or the viewport height. -/
def GoodP (L H : Nat) (vp : Viewport) : Prop :=
  Inv vp ∧ vp.len = L ∧ vp.height = H

instance (vp : Viewport) : Decidable (Inv vp) :=
  inferInstanceAs (Decidable (vp.selection < max vp.len 1 ∧ vp.offset ≤ vp.selection ∧
    vp.selection - vp.offset < vp.height))

/-- A file entry; only the fields the claims touch are modelled
(name, size, modification time, directory flag). -/
structure File where
  name : String
  size : Nat
  mtime : Nat
  isDir : Bool
deriving DecidableEq, Inhabited, Repr

/-- The sort keys of a listing (`SortBy` in files.rs). -/
inductive SortBy where
  | name | size | mtime
deriving DecidableEq, Repr

/-- Lexicographic comparison of character lists. -/
def charListLe : List Char → List Char → Bool
  | [], _ => true
  | _ :: _, [] => false
  | a :: as, b :: bs => if a = b then charListLe as bs else decide (a < b)

/-- Lexicographic string comparison used for name ordering. -/
def strLe (a b : String) : Bool := charListLe a.toList b.toList

/-- Modelled from the spec: the per-key comparison of `Files::sort`
(files.rs is not among the supplied sources). -/
def fileLe (key : SortBy) (a b : File) : Bool :=
  match key with
  | .name => strLe a.name b.name
  | .size => decide (a.size ≤ b.size)
  | .mtime => decide (a.mtime ≤ b.mtime)

/-- Stable insertion into a sorted list. -/
def insertLe (le : File → File → Bool) (x : File) : List File → List File
  | [] => [x]
  | y :: ys => if le x y then x :: y :: ys else y :: insertLe le x ys

/-- Stable insertion sort. -/
def sortLe (le : File → File → Bool) : List File → List File
  | [] => []
  | x :: xs => insertLe le x (sortLe le xs)

/-- Modelled from the spec: `Files::sort` (files.rs is not among the
supplied sources) — a stable sort by the current sort key; with
`dirs_first` set, directories are placed before non-directories,
otherwise everything is interleaved in key order. -/
def sortFiles (dirsFirst : Bool) (key : SortBy) (l : List File) : List File :=
  if dirsFirst then
    sortLe (fileLe key) (l.filter (fun f => f.isDir)) ++
      sortLe (fileLe key) (l.filter (fun f => !f.isDir))
  else sortLe (fileLe key) l

/-- Rust `Iterator::position`: index of the first element satisfying `p`. -/
def position {α : Type} (p : α → Bool) : List α → Option Nat
  | [] => none
  | a :: t => if p a then some 0 else (position p t).map (· + 1)

/-- Rust `Iterator::find`: the first element satisfying `p`. -/
def findFirst {α : Type} (p : α → Bool) : List α → Option α
  | [] => none
  | a :: t => if p a then some a else findFirst p t

/-- Model of `ListView<Files>` (listview.rs 143-157): the visible file
sequence (`iter_files`), the cached `current_item`, the viewport fields,
and the listing flags of `Files` that the claims touch (files.rs is not
among the supplied sources; its flags follow the spec's data model). -/
structure FileListView where
  files : List File
  currentItem : Option File
  selection : Nat
  offset : Nat
  height : Nat
  seeking : Bool
  searching : Option String
  dirsFirst : Bool
  sortBy : SortBy
deriving DecidableEq, Repr

/-- Model of `ListView::selected_file` / `clone_selected_file`
(listview.rs 400-402, 424-427): reads the cached `current_item`.  The
source unwraps; theorems only use states where the cache is set. -/
def cloneSelectedFileD (lv : FileListView) : File := lv.currentItem.getD default

/-- Model of `ListView::select_file` (listview.rs 460-470): cache the
entry, locate the first equal entry (`position(..).unwrap_or(0)`) and
apply `set_selection` to the panel viewport. -/
def selectFile (lv : FileListView) (f : File) : FileListView :=
  let pos := (position (fun item => decide (item = f)) lv.files).getD 0
  { lv with currentItem := some f, selection := pos, offset := pos + 1 - lv.height }

/-- Model of `Widget::refresh` for `ListView` (listview.rs 953-969):
clamp the selection to the last entry when it ran past the end.  The
empty-listing placeholder inserted by `on_refresh` is not modelled;
theorems relying on `refresh` assume a non-empty listing. -/
def refreshClamp (lv : FileListView) : FileListView :=
  if lv.selection ≥ lv.files.length ∧ lv.files.length ≠ 0 then
    { lv with selection := lv.files.length - 1 }
  else lv

/-- The shared shape of `cycle_sort`, `reverse_sort`, `toggle_hidden`,
`toggle_dirs_first` and the filter loop (listview.rs 472-489, 546-563,
723-755): clone the selected entry, mutate the backing collection by `m`,
then re-select the clone by equality and refresh. -/
def structuralOp (m : List File → List File) (lv : FileListView) : FileListView :=
  let f := cloneSelectedFileD lv
  refreshClamp (selectFile { lv with files := m lv.files } f)

/-- `Files::sort` applied to the panel content. -/
def sortContent (lv : FileListView) : FileListView :=
  { lv with files := sortFiles lv.dirsFirst lv.sortBy lv.files }

/-- `move_down` acting on the panel; it also clears `seeking`
(listview.rs 192-206). -/
def panelMoveDown (lv : FileListView) : FileListView :=
  let vp := moveDown ⟨lv.files.length, lv.height, lv.selection, lv.offset⟩
  { lv with selection := vp.selection, offset := vp.offset, seeking := false }

/-- Model of `ListView::select_next_mtime` (listview.rs 491-517),
statement for statement.  Both `clone_selected_file` calls read the
cached `current_item`, which neither the `selection := 0` reset nor
`move_down` refreshes. -/
def selectNextMtime (lv : FileListView) : FileListView :=
  let file := cloneSelectedFileD lv
  let dirSettings := lv.dirsFirst
  let sortSettings := lv.sortBy
  let lv1 := sortContent { lv with dirsFirst := false, sortBy := SortBy.mtime }
  let lv2 := selectFile lv1 file
  let lv3 :=
    if lv2.seeking = false ∨ lv2.selection + 1 ≥ lv2.files.length then
      { lv2 with selection := 0, offset := 0 }
    else panelMoveDown lv2
  let file2 := cloneSelectedFileD lv3
  let lv4 := sortContent { lv3 with dirsFirst := dirSettings, sortBy := sortSettings }
  let lv5 := selectFile lv4 file2
  refreshClamp { lv5 with seeking := true }

/-- Test that the first list starts the second (element-wise equality). -/
def isStartOf : List Char → List Char → Bool
  | [], _ => true
  | _ :: _, [] => false
  | a :: as, b :: bs => decide (a = b) && isStartOf as bs

/-- Substring containment on character lists (Rust `str::contains`):
`pat` occurs contiguously in `hay`. -/
def containsSub : List Char → List Char → Bool
  | [], pat => pat.isEmpty
  | h :: t, pat => isStartOf pat (h :: t) || containsSub t pat

/-- Per-character lower-casing of Rust `str::to_lowercase` (ASCII). -/
def lowerChars (s : String) : List Char := s.toList.map Char.toLower

/-- The match of `search_next` (listview.rs 670-676):
`file.name.to_lowercase().contains(&prev_search)` — the *name* is
lower-cased, the stored pattern is not. -/
def matchesSearch (pat : String) (f : File) : Bool :=
  containsSub (lowerChars f.name) pat.toList

/-- The claim's matcher, following the spec's words: case-insensitive
substring match, i.e. both sides lower-cased. -/
def ciContains (name pat : String) : Bool :=
  containsSub (lowerChars name) (lowerChars pat)

/-- Model of `ListView::search_next` (listview.rs 659-685).  The search
runs over the raw file vector from `selection + 1`; the second component
is the status message shown, `none` when a match was selected. -/
def searchNext (lv : FileListView) : FileListView × Option String :=
  match lv.searching with
  | none => (lv, some "No search pattern set!")
  | some pat =>
    match findFirst (matchesSearch pat) (lv.files.drop (lv.selection + 1)) with
    | some f => (selectFile lv f, none)
    | none => (lv, some "Reached last search result!")

/-- Two plain files, in both name order and mtime order. -/
def mA : File := ⟨"a", 0, 10, false⟩

/-- Second file of the mtime-walk scenario. -/
def mB : File := ⟨"b", 0, 20, false⟩

/-- Panel amid an mtime walk (`seeking = true`), selected on `mA`. -/
def lvC9 : FileListView :=
  ⟨[mA, mB], some mA, 0, 0, 3, true, none, false, SortBy.name⟩

/-- Filler file for the `search_next` scenarios. -/
def cxX : File := ⟨"x", 0, 0, false⟩

/-- File whose name matches the stored pattern only case-insensitively. -/
def cxA : File := ⟨"A", 0, 0, false⟩

/-- Panel with stored upper-case pattern "A". -/
def lvC4 : FileListView :=
  ⟨[cxX, cxA], some cxX, 0, 0, 3, false, some "A", false, SortBy.name⟩

/-- File matched by the lower-case pattern "a". -/
def wAB : File := ⟨"ab", 0, 0, false⟩

/-- Panel for the `search_next` witness. -/
def lvW4 : FileListView :=
  ⟨[cxX, wAB], some cxX, 0, 0, 3, false, some "a", false, SortBy.name⟩

/-- First file of the selection-identity witness. -/
def ga : File := ⟨"ga", 1, 1, false⟩

/-- Second file of the selection-identity witness. -/
def gb : File := ⟨"gb", 2, 2, false⟩

/-- Panel selected on `gb` before a structural mutation. -/
def lvC6 : FileListView :=
  ⟨[ga, gb], some gb, 1, 0, 3, false, none, false, SortBy.name⟩

/-- An event on the shared channel, as far as the claims observe it:
a per-chunk "read N chars" status event, or the terminal status event
carrying success, pid and command. -/
inductive PEvent where
  | readChunk (cmd : String) (n : Nat)
  | exited (cmd : String) (pid : Nat) (success : Bool) (status : Int)
deriving DecidableEq, Repr

/-- Observable result of one reader thread: the final output buffer, the
writes performed on the shared `status` and `success` cells, and the
emitted events in order. -/
structure ReadResult where
  output : String
  statusWrites : List Int
  successWrites : List Bool
  events : List PEvent
deriving DecidableEq, Repr

/-- The status value written at exit (proclist.rs 72-75): the exit code
when the child exited normally, otherwise the raw signal number,
defaulting to -1. -/
def statusValue (code signal : Option Int) : Int :=
  match code with
  | some c => c
  | none => signal.getD (-1)

/-- The read loop of `Process::read_proc` (proclist.rs 52-68): for every
non-empty chunk read from the child's stdout, append it to the output
buffer and emit one "read N chars" status event; a zero-length read ends
the loop. -/
def procLoop (cmd : String) : List String → String × List PEvent
  | [] => ("", [])
  | ch :: rest =>
    let r := procLoop cmd rest
    (ch ++ r.1, PEvent.readChunk cmd ch.length :: r.2)

/-- The reader thread of `Process::read_proc` (proclist.rs 49-103), given
the chunks the child produces and its exit condition (a successful
`wait`): run the read loop, then write the success flag and the status
value once each and emit the single terminal status event. -/
def runReadProc (cmd : String) (pid : Nat) (chunks : List String)
    (code signal : Option Int) (success : Bool) : ReadResult :=
  let r := procLoop cmd chunks
  { output := r.1,
    successWrites := [success],
    statusWrites := [statusValue code signal],
    events := r.2 ++ [PEvent.exited cmd pid success (statusValue code signal)] }

/-- A `Process` entry (proclist.rs 22-31): command label and the shared
cells the claims observe. -/
structure Proc where
  cmd : String
  output : String
  status : Option Int
  success : Option Bool
deriving DecidableEq, Repr

/-- Model of `impl PartialEq for Process` (proclist.rs 33-37): equality is
`self.cmd == other.cmd` and nothing else. -/
def procBeq (a b : Proc) : Bool := decide (a.cmd = b.cmd)

/-- Model of the `ProcView` composition (proclist.rs 235-239 plus its
listview): process list, listing selection, the `viewing` index recorded
at the last preview swap, and the preview pane's text. -/
structure ProcViewState where
  procs : List Proc
  selection : Nat
  viewing : Option Nat
  preview : String
deriving DecidableEq, Repr

/-- Model of `ProcView::show_output` (proclist.rs 309-323): no swap when
the selection *index* equals `viewing`; otherwise snapshot the selected
process's output (a clone taken at swap time) into the preview and record
the index in `viewing`.  An out-of-range selection errors out early via
`selected_proc()?`. -/
def showOutput (s : ProcViewState) : ProcViewState :=
  if some s.selection = s.viewing then s
  else
    match s.procs.get? s.selection with
    | none => s
    | some p => { s with preview := p.output, viewing := some s.selection }

/-- Model of `ProcView::remove_proc` (proclist.rs 297-307): no-op on an
empty list, otherwise best-effort kill (no effect on the modelled
fields), removal of the entry at the selection and a blanked preview;
`viewing` is left untouched. -/
def removeProc (s : ProcViewState) : ProcViewState :=
  if s.procs.length = 0 then s
  else { s with procs := s.procs.eraseIdx s.selection, preview := "" }

/-- Point update of a list, used for the reader-thread append. -/
def modifyAt (i : Nat) (f : Proc → Proc) : List Proc → List Proc
  | [] => []
  | p :: ps =>
    match i with
    | 0 => f p :: ps
    | j + 1 => p :: modifyAt j f ps

/-- A reader thread appending a chunk to the `i`-th process's shared
output buffer (proclist.rs 60); the preview pane is untouched. -/
def appendOutput (s : ProcViewState) (i : Nat) (txt : String) : ProcViewState :=
  { s with procs := modifyAt i (fun p => { p with output := p.output ++ txt }) s.procs }

/-- Process "A" with captured output "outA". -/
def pA : Proc := ⟨"A", "outA", none, none⟩

/-- Process "B" with captured output "outB". -/
def pB : Proc := ⟨"B", "outB", none, none⟩

/-- Preview showing process `pA` (index 0), before `pA` is removed. -/
def psC8 : ProcViewState := ⟨[pA, pB], 0, some 0, "outA"⟩

/-- State for the `show_output` witness: nothing previewed yet. -/
def psW8 : ProcViewState := ⟨[pA], 0, none, ""⟩

/-- A finished process. -/
def q1 : Proc := ⟨"cmd", "", some 0, some true⟩

/-- A running process spawned from the same command as `q1`. -/
def q2 : Proc := ⟨"cmd", "zzz", none, none⟩

section ViewportTheorems

/-- Membership in `List.range'` with unit step. -/
theorem mem_range'_iff (s n i : Nat) : i ∈ List.range' s n ↔ s ≤ i ∧ i < s + n := by
  induction n generalizing s with
  | zero => simp [List.range']
  | succ n ih =>
    simp only [List.range', List.mem_cons, ih]
    omega

/-- C1: with `meta_all = false`, `len = 100`, `offset = 10`,
`viewport_height = 20` the builder's population pass visits exactly the
indices `[10, 41)` — `take(upto)` takes `upto = 31` *elements* rather than
stopping at *index* 31 — so indices 31 … 40 are fetched as well, contrary
to the claimed range `[10, 31)`. -/
theorem builder_population_bug :
    buildMetaRange false 10 20 100 = List.range' 10 31 ∧
    31 ∈ buildMetaRange false 10 20 100 ∧
    40 ∈ buildMetaRange false 10 20 100 ∧
    (∀ i : Nat, i ∈ buildMetaRange false 10 20 100 ↔ 10 ≤ i ∧ i < 41) := by
  have h : buildMetaRange false 10 20 100 = List.range' 10 31 := by decide
  refine ⟨h, by decide, by decide, ?_⟩
  intro i
  rw [h, mem_range'_iff]

/-- C2 counterexample: `set_selection(4)` with viewport height 3 yields
`offset = 2`, which is not a multiple of the viewport height; the claimed
offset (the unique multiple of 3 that is `≤ 4` and keeps `4` within one
page) is 3. -/
theorem set_selection_counterexample :
    (setSelection vpC2 4).selection = 4 ∧
    (setSelection vpC2 4).offset = 2 ∧
    ¬ (3 ∣ (setSelection vpC2 4).offset) ∧
    (3 ∣ 3) ∧ 3 ≤ 4 ∧ 4 - 3 < 3 := by
  decide

/-- C2 (amended): `set_selection(pos)` sets `selection` to `pos` and sets
`offset` to the *least* offset that keeps `pos` inside the window
(`pos < offset + viewport_height`), i.e. `pos + 1 - viewport_height`
saturated at 0 — bottom-aligned scrolling, not the smallest multiple of
the viewport height. -/
theorem set_selection_amended (vp : Viewport) (pos : Nat) :
    (setSelection vp pos).selection = pos ∧
    pos < vp.height + (setSelection vp pos).offset ∧
    ∀ o : Nat, pos < vp.height + o → (setSelection vp pos).offset ≤ o := by
  obtain ⟨l, h, sel, off⟩ := vp
  refine ⟨rfl, ?_, ?_⟩
  · dsimp [setSelection]
    omega
  · intro o ho
    dsimp [setSelection] at ho ⊢
    omega

/-- Witness for `set_selection_amended` at `pos = 4`, `height = 3`. -/
theorem set_selection_amended_witness : (setSelection vpC2 4).offset ≤ 5 :=
  (set_selection_amended vpC2 4).2.2 5 (by decide)

/-- C5: over 5 items with viewport height 3, four `move_down` calls from
`(0, 0)` give `(selection, offset) = (4, 2)` and a fifth is a no-op; and
in general `move_down` changes `offset` only when both
`selection + 1 ≥ height` and `selection + 1 - offset ≥ height` hold
(stated for states where `offset ≤ selection + 1`, so the `usize`
subtraction of the source cannot underflow). -/
theorem move_down_scenario :
    (moveDown (moveDown (moveDown (moveDown ⟨5, 3, 0, 0⟩))) = ⟨5, 3, 4, 2⟩ ∧
      moveDown ⟨5, 3, 4, 2⟩ = ⟨5, 3, 4, 2⟩) ∧
    (∀ vp : Viewport, vp.offset ≤ vp.selection + 1 →
      (moveDown vp).offset ≠ vp.offset →
      vp.selection + 1 ≥ vp.height ∧ vp.selection + 1 - vp.offset ≥ vp.height) := by
  refine ⟨by decide, ?_⟩
  intro vp hle hoff
  obtain ⟨l, h, sel, off⟩ := vp
  dsimp [moveDown] at hoff ⊢
  split at hoff
  · exact absurd rfl hoff
  · split at hoff
    · omega
    · exact absurd rfl hoff

/-- Witness for the general part of `move_down_scenario` at
`(len, height, selection, offset) = (5, 3, 2, 0)`. -/
theorem move_down_scenario_witness : 2 + 1 ≥ 3 ∧ 2 + 1 - 0 ≥ 3 :=
  move_down_scenario.2 ⟨5, 3, 2, 0⟩ (by decide) (by decide)

/-- A property preserved by one step of a loop body is preserved by the
whole loop. -/
theorem iterOp_pres (f : Viewport → Viewport) (P : Viewport → Prop)
    (hf : ∀ vp, P vp → P (f vp)) :
    ∀ (n : Nat) (vp : Viewport), P vp → P (iterOp f n vp) := by
  intro n
  induction n with
  | zero => intro vp h; exact h
  | succ n ih => intro vp h; exact ih (f vp) (hf vp h)

/-- `move_up` preserves the viewport invariant, the length and the height. -/
theorem moveUp_good (L H : Nat) (vp : Viewport) (hg : GoodP L H vp) :
    GoodP L H (moveUp vp) := by
  obtain ⟨l, ht, sel, off⟩ := vp
  obtain ⟨⟨h1, h2, h3⟩, hL, hH⟩ := hg
  dsimp [Inv] at h1 h2 h3
  dsimp at hL hH
  subst hL
  subst hH
  dsimp [GoodP, Inv, moveUp]
  split_ifs <;> dsimp <;> omega

/-- `move_down` preserves the viewport invariant, the length and the height. -/
theorem moveDown_good (L H : Nat) (vp : Viewport) (hg : GoodP L H vp) :
    GoodP L H (moveDown vp) := by
  obtain ⟨l, ht, sel, off⟩ := vp
  obtain ⟨⟨h1, h2, h3⟩, hL, hH⟩ := hg
  dsimp [Inv] at h1 h2 h3
  dsimp at hL hH
  subst hL
  subst hH
  dsimp [GoodP, Inv, moveDown]
  split_ifs <;> dsimp <;> omega

/-- `set_selection` with an in-range position preserves the invariant. -/
theorem setSelection_good (L H : Nat) (vp : Viewport) (pos : Nat)
    (hpos : pos < max L 1) (hg : GoodP L H vp) :
    GoodP L H (setSelection vp pos) := by
  obtain ⟨l, ht, sel, off⟩ := vp
  obtain ⟨⟨h1, h2, h3⟩, hL, hH⟩ := hg
  dsimp [Inv] at h1 h2 h3
  dsimp at hL hH
  subst hL
  subst hH
  dsimp [GoodP, Inv, setSelection]
  omega

/-- A safe navigation step preserves the invariant, the length and the
height (the length bound `L < 2 ^ 64` grounds the wrapping model of
`move_bottom`). -/
theorem navStep_good (L H : Nat) (hW : L < 2 ^ 64) (vp : Viewport) (op : NavOp)
    (hg : GoodP L H vp) (hs : SafeOpB L op = true) : GoodP L H (navStep vp op) := by
  cases op with
  | up => exact moveUp_good L H vp hg
  | down => exact moveDown_good L H vp hg
  | pgUp => exact iterOp_pres moveUp (GoodP L H) (moveUp_good L H) vp.height vp hg
  | pgDown => exact iterOp_pres moveDown (GoodP L H) (moveDown_good L H) vp.height vp hg
  | top => exact setSelection_good L H vp 0 (by omega) hg
  | bottom =>
    have hL : 1 ≤ L := by
      simpa [SafeOpB] using hs
    have hlen : vp.len = L := hg.2.1
    have hsub : usizeSub1 vp.len = L - 1 := by
      rw [hlen]; unfold usizeSub1; omega
    rw [navStep, moveBottom, hsub]
    exact setSelection_good L H vp (L - 1) (by omega) hg
  | set pos =>
    have hpos : pos < max L 1 := by
      simpa [SafeOpB] using hs
    exact setSelection_good L H vp pos hpos hg

/-- Folding any sequence of safe navigation steps preserves the invariant. -/
theorem foldl_good (L H : Nat) (hW : L < 2 ^ 64) :
    ∀ (ops : List NavOp) (vp : Viewport), GoodP L H vp →
      (∀ op ∈ ops, SafeOpB L op = true) →
      GoodP L H (List.foldl navStep vp ops) := by
  intro ops
  induction ops with
  | nil => intro vp hg _; exact hg
  | cons op ops ih =>
    intro vp hg hsafe
    exact ih (navStep vp op)
      (navStep_good L H hW vp op hg (hsafe op (List.mem_cons_self op ops)))
      (fun o ho => hsafe o (List.mem_cons_of_mem op ho))

/-- C3 counterexample: the invariant does not survive every operation as
claimed.  `set_selection(5)` on a 1-element list leaves `selection = 5`,
violating `selection < max(len, 1)`; and `move_bottom` on an empty list
evaluates the `usize` expression `0 - 1` (a panic in debug builds), which
under release wrapping yields `selection = 2 ^ 64 - 1` instead of keeping
the selection at 0. -/
theorem viewport_invariant_counterexample :
    (navStep ⟨1, 3, 0, 0⟩ (NavOp.set 5)).selection = 5 ∧
    ¬ Inv (navStep ⟨1, 3, 0, 0⟩ (NavOp.set 5)) ∧
    (navStep ⟨0, 3, 0, 0⟩ NavOp.bottom).selection = 2 ^ 64 - 1 := by
  refine ⟨rfl, by decide, ?_⟩
  show usizeSub1 0 = 2 ^ 64 - 1
  unfold usizeSub1
  omega

/-- C3 (amended): for every finite sequence of navigation operations in
which `set_selection` is only invoked with a position below
`max(len, 1)` and `move_bottom` only on a non-empty list, starting from
`selection = offset = 0` with a positive viewport height (and `len` in
`usize` range), the invariant `selection < max(len, 1) ∧
offset ≤ selection ∧ selection - offset < viewport_height` holds after
every call; on an empty list the remaining operations keep
`selection = 0`.  As literally stated the claim fails (see the
counterexample): `set_selection(pos)` with `pos ≥ len` keeps the
out-of-range position, and `move_bottom` on an empty list underflows. -/
theorem viewport_invariant (ops : List NavOp) (len h : Nat)
    (hh : 1 ≤ h) (hlen : len < 2 ^ 64)
    (hsafe : ∀ op ∈ ops, SafeOpB len op = true) :
    Inv (List.foldl navStep ⟨len, h, 0, 0⟩ ops) :=
  (foldl_good len h hlen ops ⟨len, h, 0, 0⟩
    ⟨⟨by dsimp; omega, Nat.le_refl 0, by dsimp; omega⟩, rfl, rfl⟩ hsafe).1

/-- Witness for `viewport_invariant` on a 2-element list of height 3. -/
theorem viewport_invariant_witness :
    Inv (List.foldl navStep ⟨2, 3, 0, 0⟩
      [NavOp.down, NavOp.bottom, NavOp.top, NavOp.pgDown, NavOp.set 1]) :=
  viewport_invariant [NavOp.down, NavOp.bottom, NavOp.top, NavOp.pgDown, NavOp.set 1]
    2 3 (by decide) (by decide) (by decide)

end ViewportTheorems

section FilePanelTheorems

/-- Specification of `findFirst`: the returned element occurs in the list,
satisfies the test, and nothing before it does. -/
theorem findFirst_spec {α : Type} (p : α → Bool) :
    ∀ (l : List α) (x : α), findFirst p l = some x →
      ∃ j, l.get? j = some x ∧ p x = true ∧
        ∀ k, k < j → ∀ y, l.get? k = some y → p y = false := by
  intro l
  induction l with
  | nil => intro x h; simp [findFirst] at h
  | cons a t ih =>
    intro x h
    cases hpa : p a with
    | true =>
      have hx : a = x := by simpa [findFirst, hpa] using h
      subst hx
      exact ⟨0, rfl, hpa, fun k hk => absurd hk (Nat.not_lt_zero k)⟩
    | false =>
      have h' : findFirst p t = some x := by simpa [findFirst, hpa] using h
      obtain ⟨j, hj, hpx, hmin⟩ := ih x h'
      refine ⟨j + 1, by simpa using hj, hpx, ?_⟩
      intro k hk y hy
      cases k with
      | zero =>
        have : a = y := by simpa using hy
        subst this
        exact hpa
      | succ k => exact hmin k (by omega) y (by simpa using hy)

/-- Indexing into a dropped list shifts the index. -/
theorem get?_drop' {α : Type} : ∀ (n : Nat) (l : List α) (m : Nat),
    (l.drop n).get? m = l.get? (n + m) := by
  intro n
  induction n with
  | zero => intro l m; simp
  | succ n ih =>
    intro l m
    cases l with
    | nil => simp
    | cons a t =>
      have he : n + 1 + m = (n + m) + 1 := by omega
      rw [List.drop_succ_cons, ih t m, he, List.get?_cons_succ]

/-- In a duplicate-free list, `position` of the entry stored at index `j`
returns exactly `j`. -/
theorem position_eq_of_get? :
    ∀ (l : List File) (j : Nat) (x : File), l.Nodup → l.get? j = some x →
      position (fun y => decide (y = x)) l = some j := by
  intro l
  induction l with
  | nil => intro j x _ h; simp at h
  | cons a t ih =>
    intro j x hnd h
    cases j with
    | zero =>
      have hx : a = x := by simpa using h
      subst hx
      simp [position]
    | succ j =>
      have ht : t.get? j = some x := by simpa using h
      have hmem : x ∈ t := List.get?_mem ht
      have hne : ¬ a = x := by
        intro he
        subst he
        exact (List.nodup_cons.mp hnd).1 hmem
      have := ih j x (List.nodup_cons.mp hnd).2 ht
      simp [position, hne, this]

/-- `position` of an absent entry is `none`. -/
theorem position_none_of_not_mem :
    ∀ (l : List File) (x : File), x ∉ l →
      position (fun y => decide (y = x)) l = none := by
  intro l
  induction l with
  | nil => intro x _; rfl
  | cons a t ih =>
    intro x hx
    have hne : ¬ a = x := fun he => hx (he ▸ List.mem_cons_self a t)
    simp [position, hne, ih x (fun hm => hx (List.mem_cons_of_mem a hm))]

/-- `position` of a present entry succeeds. -/
theorem position_isSome_of_mem :
    ∀ (l : List File) (x : File), x ∈ l →
      ∃ i, position (fun y => decide (y = x)) l = some i := by
  intro l
  induction l with
  | nil => intro x hx; exact absurd hx (List.not_mem_nil x)
  | cons a t ih =>
    intro x hx
    by_cases hax : a = x
    · exact ⟨0, by simp [position, hax]⟩
    · obtain ⟨i, hi⟩ := ih x (by
        cases List.mem_cons.mp hx with
        | inl h => exact absurd h.symm hax
        | inr h => exact h)
      exact ⟨i + 1, by simp [position, hax, hi]⟩

/-- Specification of `position`: the index points at the entry and no
earlier index does. -/
theorem position_spec :
    ∀ (l : List File) (x : File) (i : Nat),
      position (fun y => decide (y = x)) l = some i →
      l.get? i = some x ∧ ∀ k, k < i → l.get? k ≠ some x := by
  intro l
  induction l with
  | nil => intro x i h; simp [position] at h
  | cons a t ih =>
    intro x i h
    by_cases hax : a = x
    · subst hax
      have hi : i = 0 := by simpa [position] using h.symm
      subst hi
      exact ⟨rfl, fun k hk => absurd hk (Nat.not_lt_zero k)⟩
    · rw [position, if_neg (by simpa using hax), Option.map_eq_some'] at h
      obtain ⟨j, hj, rfl⟩ := h
      obtain ⟨hg, hmin⟩ := ih x j hj
      refine ⟨by simpa using hg, ?_⟩
      intro k hk
      cases k with
      | zero =>
        intro hc
        exact hax (by simpa using hc)
      | succ k =>
        intro hc
        exact hmin k (by omega) (by simpa using hc)

/-- `get?` succeeding bounds the index. -/
theorem get?_some_lt {α : Type} : ∀ (l : List α) (i : Nat) (x : α),
    l.get? i = some x → i < l.length := by
  intro l
  induction l with
  | nil => intro i x h; simp at h
  | cons a t ih =>
    intro i x h
    cases i with
    | zero => simp
    | succ i =>
      have := ih i x (by simpa using h)
      simpa using Nat.succ_lt_succ this

/-- C6: after a structural mutation `m` of the listing (the shape shared
by `cycle_sort`, `reverse_sort`, `toggle_hidden`, `toggle_dirs_first` and
the filter), the previously selected entry `f` is re-located by equality:
`current_item` stays `f`, and the selection becomes the index of the
first entry equal to `f` in the mutated listing, or 0 when `f` is no
longer present — selection tracks identity, never raw index. -/
theorem selection_identity (m : List File → List File) (lv : FileListView)
    (f : File) (hcur : lv.currentItem = some f) (hne : m lv.files ≠ []) :
    (structuralOp m lv).currentItem = some f ∧
    (f ∈ m lv.files →
      (m lv.files).get? (structuralOp m lv).selection = some f ∧
      ∀ k, k < (structuralOp m lv).selection → (m lv.files).get? k ≠ some f) ∧
    (f ∉ m lv.files → (structuralOp m lv).selection = 0) := by
  have hclone : cloneSelectedFileD lv = f := by
    simp [cloneSelectedFileD, hcur]
  have hlen : (m lv.files).length ≠ 0 := fun h0 => hne (List.length_eq_zero.mp h0)
  by_cases hmem : f ∈ m lv.files
  · obtain ⟨i, hi⟩ := position_isSome_of_mem (m lv.files) f hmem
    obtain ⟨hg, hmin⟩ := position_spec (m lv.files) f i hi
    have hlt : i < (m lv.files).length := get?_some_lt (m lv.files) i f hg
    have hsel : (structuralOp m lv).selection = i := by
      simp only [structuralOp, hclone, selectFile, refreshClamp]
      simp only [hi, Option.getD_some]
      split
      · next hc => exact absurd hc.1 (by omega)
      · rfl
    have hcur' : (structuralOp m lv).currentItem = some f := by
      simp only [structuralOp, hclone, selectFile, refreshClamp]
      split <;> rfl
    refine ⟨hcur', fun _ => ⟨hsel ▸ hg, fun k hk => hmin k (hsel ▸ hk)⟩,
      fun habs => absurd hmem habs⟩
  · have hpos := position_none_of_not_mem (m lv.files) f hmem
    have hsel : (structuralOp m lv).selection = 0 := by
      simp only [structuralOp, hclone, selectFile, refreshClamp]
      simp only [hpos, Option.getD_none]
      split
      · next hc => exact absurd (Nat.le_zero.mp hc.1) hlen
      · rfl
    have hcur' : (structuralOp m lv).currentItem = some f := by
      simp only [structuralOp, hclone, selectFile, refreshClamp]
      split <;> rfl
    exact ⟨hcur', fun hm => absurd hm hmem, fun _ => hsel⟩

/-- Witness for `selection_identity`: reversing a 2-element listing moves
the selected entry `gb` from index 1 to index 0. -/
theorem selection_identity_witness :
    (structuralOp (fun l => l.reverse) lvC6).currentItem = some gb ∧
    (lvC6.files.reverse).get?
      (structuralOp (fun l => l.reverse) lvC6).selection = some gb := by
  have h := selection_identity (fun l => l.reverse) lvC6 gb rfl (by decide)
  exact ⟨h.1, (h.2.1 (by decide)).1⟩

/-- C4 counterexample: with stored pattern "A" and a file named "A" right
after the selection, a case-insensitive search would select index 1, but
the source lower-cases only the name and not the pattern, finds nothing,
keeps the state unchanged and reports the status message. -/
theorem search_next_counterexample :
    ciContains "A" "A" = true ∧
    lvC4.files.get? 1 = some cxA ∧
    (searchNext lvC4).1 = lvC4 ∧
    (searchNext lvC4).2 = some "Reached last search result!" := by
  decide

/-- C4 (amended): `search_next` scans forward from `selection + 1` for
the first file whose *lower-cased name* contains the stored pattern
verbatim (the pattern is not lower-cased, so matching is case-insensitive
only on the name side); on a hit it re-selects that file by equality —
its index, when the entries are pairwise distinct —, on a miss it leaves
the state unchanged and reports "Reached last search result!" instead of
wrapping around. -/
theorem search_next_amended (lv : FileListView) (pat : String) (f : File)
    (hs : lv.searching = some pat) (hnd : lv.files.Nodup) :
    (findFirst (matchesSearch pat) (lv.files.drop (lv.selection + 1)) = some f →
      ∃ j, lv.selection < j ∧ lv.files.get? j = some f ∧
        matchesSearch pat f = true ∧
        (∀ k, lv.selection < k → k < j → ∀ y, lv.files.get? k = some y →
          matchesSearch pat y = false) ∧
        (searchNext lv).1.selection = j ∧
        (searchNext lv).1.currentItem = some f) ∧
    (findFirst (matchesSearch pat) (lv.files.drop (lv.selection + 1)) = none →
      (searchNext lv).1 = lv ∧
      (searchNext lv).2 = some "Reached last search result!") := by
  constructor
  · intro hfind
    obtain ⟨j0, hj0, hpf, hmin0⟩ := findFirst_spec _ _ f hfind
    rw [get?_drop'] at hj0
    refine ⟨lv.selection + 1 + j0, by omega, hj0, hpf, ?_, ?_, ?_⟩
    · intro k hk1 hk2 y hy
      obtain ⟨k0, rfl, hlt⟩ : ∃ k0, k = lv.selection + 1 + k0 ∧ k0 < j0 :=
        ⟨k - (lv.selection + 1), by omega, by omega⟩
      exact hmin0 k0 hlt y (by rw [get?_drop']; exact hy)
    · have hpos := position_eq_of_get? lv.files (lv.selection + 1 + j0) f hnd hj0
      simp [searchNext, hs, hfind, selectFile, hpos]
    · simp [searchNext, hs, hfind, selectFile]
  · intro hnone
    constructor <;> simp [searchNext, hs, hnone]

/-- Witness for `search_next_amended`: pattern "a", files ["x", "ab"],
selection 0 — the match "ab" at index 1 is selected. -/
theorem search_next_amended_witness :
    ∃ j, lvW4.selection < j ∧ lvW4.files.get? j = some wAB ∧
      matchesSearch "a" wAB = true ∧
      (∀ k, lvW4.selection < k → k < j → ∀ y, lvW4.files.get? k = some y →
        matchesSearch "a" y = false) ∧
      (searchNext lvW4).1.selection = j ∧
      (searchNext lvW4).1.currentItem = some wAB :=
  (search_next_amended lvW4 "a" wAB rfl (by decide)).1 (by decide)

/-- C9: the mtime walk is inert.  On a two-file listing (mtimes 10 < 20)
with `seeking` already set and `mA` selected, `select_next_mtime` should
step to `mB` (index 1 of the mtime order `[mA, mB]`) but re-selects `mA`
(selection 0, `current_item` still `mA`): both `clone_selected_file`
calls read the cached `current_item`, which the intervening `move_down`
does not update.  The sort key and the `dirs_first` flag are restored as
the claim states. -/
theorem select_next_mtime_stuck :
    (selectNextMtime lvC9).selection = 0 ∧
    (selectNextMtime lvC9).currentItem = some mA ∧
    sortFiles false SortBy.mtime lvC9.files = [mA, mB] ∧
    (selectNextMtime lvC9).files = [mA, mB] ∧
    (selectNextMtime lvC9).sortBy = SortBy.name ∧
    (selectNextMtime lvC9).dirsFirst = false ∧
    (selectNextMtime lvC9).seeking = true := by
  decide

end FilePanelTheorems

section ProcTheorems

/-- Closed form of the read loop: the output is the concatenation of the
chunks in read order, with one "read N chars" event per chunk. -/
theorem procLoop_spec (cmd : String) : ∀ chunks : List String,
    procLoop cmd chunks =
      (chunks.foldr (fun ch acc => ch ++ acc) "",
        chunks.map (fun ch => PEvent.readChunk cmd ch.length)) := by
  intro chunks
  induction chunks with
  | nil => rfl
  | cons ch rest ih => simp [procLoop, ih]

/-- C7: once the reader thread reaches end of output and the child exits,
it writes the success flag and the status exactly once — the exit code if
the child exited normally, otherwise the raw signal number — and the
event stream is one "read N chars" event per chunk in read order followed
by exactly one terminal `exited` event carrying success, pid and command,
with nothing after it; the "echo hello" run ends with output buffer
"hello\n", a single status write 0 and a single success write `true`. -/
theorem process_lifecycle :
    (∀ (cmd : String) (pid : Nat) (chunks : List String)
        (code signal : Option Int) (success : Bool),
      (runReadProc cmd pid chunks code signal success).output =
        chunks.foldr (fun ch acc => ch ++ acc) "" ∧
      (runReadProc cmd pid chunks code signal success).statusWrites.length = 1 ∧
      (runReadProc cmd pid chunks code signal success).successWrites = [success] ∧
      (∀ c, code = some c →
        (runReadProc cmd pid chunks code signal success).statusWrites = [c]) ∧
      (∀ sg, code = none → signal = some sg →
        (runReadProc cmd pid chunks code signal success).statusWrites = [sg]) ∧
      (runReadProc cmd pid chunks code signal success).events =
        chunks.map (fun ch => PEvent.readChunk cmd ch.length) ++
          [PEvent.exited cmd pid success (statusValue code signal)]) ∧
    ((runReadProc "echo hello" 42 ["hello\n"] (some 0) none true).output = "hello\n" ∧
      (runReadProc "echo hello" 42 ["hello\n"] (some 0) none true).statusWrites = [0] ∧
      (runReadProc "echo hello" 42 ["hello\n"] (some 0) none true).successWrites = [true] ∧
      (runReadProc "echo hello" 42 ["hello\n"] (some 0) none true).events =
        [PEvent.readChunk "echo hello" 6, PEvent.exited "echo hello" 42 true 0]) := by
  constructor
  · intro cmd pid chunks code signal success
    refine ⟨?_, rfl, rfl, ?_, ?_, ?_⟩
    · simp [runReadProc, procLoop_spec]
    · intro c hc
      subst hc
      rfl
    · intro sg hc hsg
      subst hc
      subst hsg
      rfl
    · simp [runReadProc, procLoop_spec]
  · exact ⟨rfl, rfl, rfl, rfl⟩

/-- Witness for `process_lifecycle`: a signalled child (no exit code,
signal 9) gets the raw signal number as its one status write. -/
theorem process_lifecycle_witness :
    (runReadProc "sleep 100" 7 [] none (some 9) false).statusWrites = [9] :=
  (process_lifecycle.1 "sleep 100" 7 [] none (some 9) false).2.2.2.2.1 9 rfl rfl

/-- C8 counterexample: the preview shows the removed process `pA`'s
output; after `remove_proc` the newly selected process is `pB` (whose
output was never previewed), yet `show_output` swaps nothing because the
selection *index* still equals `viewing` — refuting "if and only if the
newly selected process differs from the one previewed". -/
theorem show_output_counterexample :
    (showOutput (removeProc psC8)).preview = "" ∧
    (showOutput (removeProc psC8)).viewing = some 0 ∧
    (showOutput (removeProc psC8)).procs.get?
      (showOutput (removeProc psC8)).selection = some pB ∧
    pB.output = "outB" ∧
    (showOutput (removeProc psC8)).preview ≠ pB.output := by
  decide

/-- C8 (amended): the preview swap is keyed on the selection *index*, not
on process identity: `show_output` is a no-op exactly when the selected
index equals `viewing` (even if the process stored at that index has
changed, e.g. after a removal); otherwise, when a process is selected,
the preview becomes a snapshot of its output at swap time — later
appends to the shared buffer do not alter the preview — and `viewing`
becomes the selected index. -/
theorem show_output_amended (s : ProcViewState) :
    (some s.selection = s.viewing → showOutput s = s) ∧
    (∀ p, some s.selection ≠ s.viewing → s.procs.get? s.selection = some p →
      (showOutput s).preview = p.output ∧
      (showOutput s).viewing = some s.selection) ∧
    (∀ i txt, (appendOutput (showOutput s) i txt).preview = (showOutput s).preview) := by
  refine ⟨?_, ?_, fun i txt => rfl⟩
  · intro h
    simp [showOutput, h]
  · intro p hne hp
    unfold showOutput
    rw [if_neg hne, hp]
    exact ⟨rfl, rfl⟩

/-- Witness for `show_output_amended`: previewing `pA` for the first
time snapshots "outA" and records index 0. -/
theorem show_output_amended_witness :
    (showOutput psW8).preview = "outA" ∧ (showOutput psW8).viewing = some 0 :=
  (show_output_amended psW8).2.1 pA (by decide) rfl

/-- C10: two `Process` entries compare equal exactly when their (already
home-abbreviated) command strings are equal, irrespective of handle,
output, status or success; hence an equality-based lookup such as
`Iterator::position` cannot distinguish two processes spawned from the
same command. -/
theorem process_eq_by_cmd :
    (∀ a b : Proc, procBeq a b = true ↔ a.cmd = b.cmd) ∧
    (∀ (a b : Proc) (l : List Proc), a.cmd = b.cmd →
      position (fun p => procBeq p a) l = position (fun p => procBeq p b) l) := by
  constructor
  · intro a b
    simp [procBeq]
  · intro a b l h
    have hfun : (fun p => procBeq p a) = (fun p => procBeq p b) := by
      funext p
      simp [procBeq, h]
    rw [hfun]

/-- Witness for `process_eq_by_cmd`: a finished and a running process
with the same command are interchangeable in lookups. -/
theorem process_eq_by_cmd_witness :
    procBeq q1 q2 = true ∧
    position (fun p => procBeq p q1) [q2] = position (fun p => procBeq p q2) [q2] :=
  ⟨(process_eq_by_cmd.1 q1 q2).mpr rfl, process_eq_by_cmd.2 q1 q2 [q2] rfl⟩

end ProcTheorems

end Hunter
